import Mathlib

/-!
Verification of the multithreaded HTTP file server (`Lab2/server.py`).

Strings from the Python source are modelled as `List Char`; machine floats
used for timestamps are idealised as `ℚ`; Python's unbounded `int` is `ℤ`
(or `ℕ` where the source value is always non-negative).  Filesystem state is
an explicit environment (`FS`) of two boolean predicates, mirroring the only
two queries the server makes (`os.path.exists`, `os.path.isdir`).
-/

/-! ## Python string primitives used by the server -/

/-- Characters treated as whitespace by Python's `str.strip()` / `str.split()`
(the ASCII ones; request bytes contain no other whitespace). -/
def isPySpace (c : Char) : Bool :=
  c == ' ' || c == '\t' || c == '\n' || c == '\r' || c == '\x0b' || c == '\x0c'

/-- Python `s.strip()`: drop whitespace from both ends. -/
def pyStrip (l : List Char) : List Char :=
  ((l.dropWhile isPySpace).reverse.dropWhile isPySpace).reverse

/-- Python `s.split(sep)` for a one-character separator: keeps empty pieces,
never returns an empty list (`''.split(c) == ['']`). -/
def pySplit (sep : Char) : List Char → List (List Char)
  | [] => [[]]
  | c :: rest =>
    let r := pySplit sep rest
    if c == sep then [] :: r else (c :: r.headD []) :: r.tail

/-- Helper for `pyWords`: accumulates the current (reversed) token. -/
def pyWordsAux : List Char → List Char → List (List Char)
  | [], cur => if cur.isEmpty then [] else [cur.reverse]
  | c :: rest, cur =>
    if isPySpace c then
      if cur.isEmpty then pyWordsAux rest [] else cur.reverse :: pyWordsAux rest []
    else
      pyWordsAux rest (c :: cur)

/-- Python `s.split()` with no argument: split on runs of whitespace,
discarding empty tokens. -/
def pyWords (l : List Char) : List (List Char) := pyWordsAux l []

/-- Python `s.lstrip('/')`: remove every leading `'/'`. -/
def pyLstripSlash (l : List Char) : List Char := l.dropWhile (fun c => c == '/')

/-- POSIX `os.path.join` for two components, as in `posixpath.join`:
an absolute second component replaces the first; otherwise concatenate,
inserting `'/'` unless the first part is empty or already ends in `'/'`. -/
def pyJoin (a b : List Char) : List Char :=
  if b.head? = some '/' then b
  else if a = [] ∨ a.getLast? = some '/' then a ++ b
  else a ++ '/' :: b

/-! ## Path Resolver (`serve_file`, server.py lines 153–172) -/

/-- Filesystem environment: the two queries `serve_file` makes.
Both are applied to the textual candidate path exactly as the OS would be
(`os.path.exists` / `os.path.isdir` resolve `..` segments themselves). -/
structure FS where
  fsExists : List Char → Bool
  fsIsDir : List Char → Bool

/-- The candidate absolute path of `serve_file` (lines 154–159):
`/` maps to the empty path, other paths lose their leading slashes, and the
result is joined with the document root. -/
def candidatePath (root p : List Char) : List Char :=
  pyJoin root (if p = ['/'] then [] else pyLstripSlash p)

/-- Result of `serve_file`'s classification of a request path. -/
inductive ServeOutcome where
  | forbidden
  | notFound
  | dirListing (full : List Char)
  | fileServed (full : List Char)
deriving DecidableEq

/-- `HTTPServer.serve_file` (lines 153–172): build the candidate path, send
403 if it does not start with the document root, 404 if it does not exist,
otherwise serve a directory listing or the file itself. -/
def serve_file (fs : FS) (root p : List Char) : ServeOutcome :=
  let full_path := candidatePath root p
  if (List.isPrefixOf root full_path) = false then ServeOutcome.forbidden
  else if fs.fsExists full_path = false then ServeOutcome.notFound
  else if fs.fsIsDir full_path then ServeOutcome.dirListing full_path
  else ServeOutcome.fileServed full_path

/-- HTTP status produced by each `serve_file` outcome (200 for both the
directory listing and the file response). -/
def serveStatus : ServeOutcome → ℕ
  | ServeOutcome.forbidden => 403
  | ServeOutcome.notFound => 404
  | ServeOutcome.dirListing _ => 200
  | ServeOutcome.fileServed _ => 200

/-- `HTTPServer.increment_counter` in synchronized mode (lines 144–147):
under `counter_lock`, add one to the counter of `path`. -/
def increment_counter (counters : List Char → ℕ) (path : List Char) : List Char → ℕ :=
  fun q => if q = path then counters path + 1 else counters q

/-- Lines 112–114 of `handle_request`: call `serve_file`, then call
`increment_counter(path)` unconditionally (`serve_file`, `serve_directory`
and `serve_regular_file` catch their own exceptions and return normally, so
control always reaches line 114). -/
def servePhase (fs : FS) (root p : List Char) (counters : List Char → ℕ) :
    ServeOutcome × (List Char → ℕ) :=
  (serve_file fs root p, increment_counter counters p)

/-! ## Content Classifier (`get_content_type`, lines 274–280) -/

/-- `HTTPServer.get_content_type`: dictionary lookup with default
`application/octet-stream`.  The dictionary has keys `.html`, `.png`,
`.pdf` only. -/
def get_content_type (ext : List Char) : List Char :=
  if ext = ".html".toList then "text/html".toList
  else if ext = ".png".toList then "image/png".toList
  else if ext = ".pdf".toList then "application/pdf".toList
  else "application/octet-stream".toList

/-! ## Admission Controller (lines 48–60 and 69–76) -/

/-- The admission decision of the accept loop (lines 48–60), taken under
`thread_lock`: if `active_threads < max_threads` a handler thread is started
and the count incremented (return `true`); otherwise the connection is
closed with no side effect on the count (return `false`). -/
def tryAcquire (active maxThreads : ℤ) : Bool × ℤ :=
  if active < maxThreads then (true, active + 1) else (false, active)

/-- The decrement in the `finally` block of `handle_client_thread`
(line 75): `active_threads -= 1`, unconditional. -/
def releaseSlot (active : ℤ) : ℤ := active - 1

/-! ## Rate Limiter (`check_rate_limit`, lines 120–135) -/

/-- The pruning `while` loop (lines 126–127): pop from the left while the
oldest timestamp is strictly older than `now - window`. -/
def pruneWindow (now window : ℚ) : List ℚ → List ℚ
  | [] => []
  | t :: rest => if window < now - t then pruneWindow now window rest else t :: rest

/-- `HTTPServer.check_rate_limit` (lines 120–135), with the current time and
the client's deque made explicit: prune, reject without recording when the
pruned window has at least `quota` entries, otherwise record `now` and
accept.  Returns the decision and the updated deque. -/
def check_rate_limit (quota : ℕ) (window now : ℚ) (dq : List ℚ) : Bool × List ℚ :=
  let d := pruneWindow now window dq
  if quota ≤ d.length then (false, d) else (true, d ++ [now])

/-- A sequence of `check_rate_limit` calls for one client at the given
times, starting from the given deque; returns the list of decisions. -/
def runLimiter (quota : ℕ) (window : ℚ) : List ℚ → List ℚ → List Bool
  | [], _ => []
  | t :: ts, dq =>
    let r := check_rate_limit quota window t dq
    r.1 :: runLimiter quota window ts r.2

/-! ## Request parsing (`handle_request`, lines 86–106) -/

/-- Outcome of the parsing portion of `handle_request`. -/
inductive ParseResult where
  | badRequest
  | methodNotAllowed
  | unpackError
  | ok (path : List Char)
deriving DecidableEq

/-- The token list of the request line: `request.split('\n')[0].strip().split()`
(lines 90–95; `split('\n')` never yields an empty list, so the
`if not lines` guard at line 91 never fires). -/
def requestParts (raw : List Char) : List (List Char) :=
  pyWords (pyStrip ((pySplit '\n' raw).headD []))

/-- Lines 94–104 of `handle_request`: fewer than three tokens is a
400 Bad Request; the tuple unpacking `method, path, version = parts`
raises `ValueError` when there are more than three tokens (caught by the
handler's catch-all, hence a 500); with exactly three tokens a method other
than `GET` is a 405, and `GET` proceeds with the path token. -/
def parseRequest (raw : List Char) : ParseResult :=
  let parts := requestParts raw
  if parts.length < 3 then ParseResult.badRequest
  else
    match parts with
    | [m, p, _v] =>
      if m = "GET".toList then ParseResult.ok p else ParseResult.methodNotAllowed
    | _ => ParseResult.unpackError

/-- HTTP status sent for each parse outcome (`none` = no response yet,
processing continues). -/
def parseStatus : ParseResult → Option ℕ
  | ParseResult.badRequest => some 400
  | ParseResult.methodNotAllowed => some 405
  | ParseResult.unpackError => some 500
  | ParseResult.ok _ => none

/-! ## Connection handler prefix (`handle_request`, lines 78–106) -/

/-- Observable actions of `handle_request`, in program order. -/
inductive ConnEv where
  | evRateCheck
  | evRecv
  | evSend (code : ℕ)
  | evServe
  | evIncrement
deriving DecidableEq

/-- Outcome of the pre-serving portion of `handle_request`. -/
inductive ConnOutcome where
  | tooMany
  | silentClose
  | badReq
  | notAllowed
  | internalErr
  | proceeds (rawPath : List Char)
deriving DecidableEq

/-- `handle_request` up to path resolution (lines 80–106): the rate-limit
check runs first (line 82, sending 429 on rejection before any read); only
then is the request read (line 86), with a zero-byte read terminating
silently; then the request line is parsed.  Returns the outcome, the
client's updated rate-limiter deque, and the event trace. -/
def handleConn (quota : ℕ) (window now : ℚ) (dq : List ℚ) (raw : List Char) :
    ConnOutcome × List ℚ × List ConnEv :=
  let r := check_rate_limit quota window now dq
  if r.1 = false then (ConnOutcome.tooMany, r.2, [ConnEv.evRateCheck, ConnEv.evSend 429])
  else if raw = [] then (ConnOutcome.silentClose, r.2, [ConnEv.evRateCheck, ConnEv.evRecv])
  else
    match parseRequest raw with
    | ParseResult.badRequest =>
      (ConnOutcome.badReq, r.2, [ConnEv.evRateCheck, ConnEv.evRecv, ConnEv.evSend 400])
    | ParseResult.methodNotAllowed =>
      (ConnOutcome.notAllowed, r.2, [ConnEv.evRateCheck, ConnEv.evRecv, ConnEv.evSend 405])
    | ParseResult.unpackError =>
      (ConnOutcome.internalErr, r.2, [ConnEv.evRateCheck, ConnEv.evRecv, ConnEv.evSend 500])
    | ParseResult.ok p =>
      (ConnOutcome.proceeds p, r.2,
        [ConnEv.evRateCheck, ConnEv.evRecv, ConnEv.evServe, ConnEv.evIncrement])

/-! ## Admission traces (`start` lines 44–60, `handle_client_thread` 69–76) -/

/-- Events touching `active_threads`: a connection being accepted (admitted
and incremented only when the count is below `max_threads`, line 49), and a
handler thread running its `finally` decrement (line 75). -/
inductive AdmEv where
  | connAdmit
  | handlerExit
deriving DecidableEq

/-- Effect of one admission event on `active_threads`. -/
def admStep (maxThreads : ℤ) (c : ℤ) : AdmEv → ℤ
  | AdmEv.connAdmit => if c < maxThreads then c + 1 else c
  | AdmEv.handlerExit => c - 1

/-- `active_threads` after a sequence of admission events. -/
def admRun (maxThreads c : ℤ) (evs : List AdmEv) : ℤ :=
  evs.foldl (admStep maxThreads) c

/-- Well-formed admission traces: every `handlerExit` is the `finally`
block of a previously admitted, still-running handler, so it can only occur
while the count is positive.  (The listener holds `thread_lock` across
`thread.start()` and the increment, and the exiting thread must take the
same lock to decrement, so a handler's decrement never precedes its own
increment.) -/
def wfAdm (maxThreads : ℤ) : ℤ → List AdmEv → Bool
  | _, [] => true
  | c, AdmEv.connAdmit :: r => wfAdm maxThreads (admStep maxThreads c AdmEv.connAdmit) r
  | c, AdmEv.handlerExit :: r => decide (0 < c) && wfAdm maxThreads (c - 1) r

/-- Lifecycle events of one handler thread. -/
inductive ThreadEv where
  | evWork
  | evErrorCaught
  | evCloseSocket
  | evRelease
deriving DecidableEq

/-- `HTTPServer.handle_client_thread` (lines 69–76): the body either
completes or has its exception caught, and the `finally` block always closes
the socket and decrements `active_threads`, on both exit paths. -/
def handle_client_thread (raised : Bool) : List ThreadEv :=
  (if raised then [ThreadEv.evErrorCaught] else [ThreadEv.evWork]) ++
    [ThreadEv.evCloseSocket, ThreadEv.evRelease]

/-! ## Synchronized counter, interleaved (`increment_counter`, lines 144–147)

Each handler thread performing a synchronized `increment_counter` on one
fixed path is modelled as two micro-steps: acquiring `counter_lock` while
reading the stored count, and writing the incremented count back while
releasing the lock.  The lock is held for the whole read-modify-write, as
in the `with self.counter_lock` block. -/

/-- Progress of one incrementing thread. -/
inductive TState where
  | idle
  | locked (v : ℕ)
  | done
deriving DecidableEq

/-- Shared state: the counter cell for the path, the owner of
`counter_lock`, and every thread's progress. -/
structure SyncState (n : ℕ) where
  counter : ℕ
  lock : Option (Fin n)
  ts : Fin n → TState

/-- One scheduler step giving thread `t` the CPU.  An idle thread can enter
the `with` block only when the lock is free (acquiring it and reading the
counter); a thread inside the block writes back `v + 1`, releases the lock
and finishes; other attempts do nothing (the thread blocks). -/
def syncStep {n : ℕ} (s : SyncState n) (t : Fin n) : SyncState n :=
  match s.ts t with
  | TState.idle =>
    if s.lock = none then
      { counter := s.counter, lock := some t,
        ts := Function.update s.ts t (TState.locked s.counter) }
    else s
  | TState.locked v =>
    if s.lock = some t then
      { counter := v + 1, lock := none, ts := Function.update s.ts t TState.done }
    else s
  | TState.done => s

/-- Initial state: counter at its pre-value, lock free, all threads idle. -/
def initSync (init n : ℕ) : SyncState n :=
  { counter := init, lock := none, ts := fun _ => TState.idle }

/-- Run a schedule (an arbitrary interleaving of the threads). -/
def runSync (init n : ℕ) (sched : List (Fin n)) : SyncState n :=
  sched.foldl syncStep (initSync init n)

/-- Number of finished threads in a thread-state assignment. -/
def doneFun {n : ℕ} (f : Fin n → TState) : ℕ :=
  (Finset.univ.filter (fun i => f i = TState.done)).card

/-- Number of threads that have completed their increment. -/
def doneCount {n : ℕ} (s : SyncState n) : ℕ := doneFun s.ts

/-- Filesystem in which the OS reports every queried candidate path as an
existing non-directory — as it does for `/srv/public/../../etc/passwd`,
since `os.path.exists` resolves the `..` segments to `/etc/passwd`. -/
def fsAllFiles : FS := FS.mk (fun _ => true) (fun _ => false)

/-- Filesystem in which the OS reports every queried candidate path as an
existing directory. -/
def fsAllDirs : FS := FS.mk (fun _ => true) (fun _ => true)

/-! ## Helper lemmas -/

/-- After `lstrip('/')` the result never starts with `'/'`. -/
theorem head_pyLstripSlash (l : List Char) : (pyLstripSlash l).head? ≠ some '/' := by
  induction l with
  | nil => simp [pyLstripSlash]
  | cons c rest ih =>
    by_cases h : c = '/'
    · simpa [pyLstripSlash, List.dropWhile_cons, h] using ih
    · simp [pyLstripSlash, List.dropWhile_cons, h]

/-- Joining with a non-absolute second component keeps the first component
as a prefix. -/
theorem pyJoin_prefix (a b : List Char) (hb : b.head? ≠ some '/') :
    List.isPrefixOf a (pyJoin a b) = true := by
  have happ : ∀ r : List Char, List.isPrefixOf a (a ++ r) = true := fun r =>
    List.isPrefixOf_iff_prefix.mpr (List.prefix_append a r)
  unfold pyJoin
  rw [if_neg hb]
  split
  · exact happ b
  · exact happ ('/' :: b)

/-- The candidate path of `serve_file` always extends the document root. -/
theorem candidate_prefix (root p : List Char) :
    List.isPrefixOf root (candidatePath root p) = true := by
  unfold candidatePath
  apply pyJoin_prefix
  by_cases hp : p = ['/']
  · simp [hp]
  · rw [if_neg hp]; exact head_pyLstripSlash p

/-! ## Claim theorems -/

/-- Claim C2: for every decoded request path, the candidate path built by
`serve_file` — `os.path.join(document_root, path.lstrip('/'))` with `/`
mapped to the empty string — begins with the document root, so the
403 Forbidden branch of `serve_file` is unreachable. -/
theorem forbidden_unreachable (root p : List Char) (fs : FS) :
    List.isPrefixOf root (candidatePath root p) = true ∧
    decide (serve_file fs root p = ServeOutcome.forbidden) = false := by
  have h := candidate_prefix root p
  refine ⟨h, decide_eq_false ?_⟩
  intro hc
  simp only [serve_file, h] at hc
  split at hc
  · simp_all
  · split at hc
    · simp at hc
    · split at hc <;> simp at hc

/-- Claim C1 counterexample: for the request path `/../../etc/passwd` and
document root `/srv/public`, the joined candidate path passes the
string-prefix check (so `serve_file` does not classify the target as
Forbidden), contrary to the claim. -/
theorem pathTraversal_cex :
    List.isPrefixOf "/srv/public".toList
      (candidatePath "/srv/public".toList "/../../etc/passwd".toList) = true ∧
    decide (serve_file fsAllFiles "/srv/public".toList "/../../etc/passwd".toList =
      ServeOutcome.forbidden) = false := by
  exact ⟨by decide, by decide⟩

/-- Claim C1 amended: the candidate for `/../../etc/passwd` against root
`/srv/public` is the textual join `/srv/public/../../etc/passwd`, which
begins with the root, so the target is classified by the filesystem — it is
served as a file (the OS resolves the candidate to `/etc/passwd`, which
exists), not rejected with 403. -/
theorem pathTraversal_amended :
    candidatePath "/srv/public".toList "/../../etc/passwd".toList =
      "/srv/public/../../etc/passwd".toList ∧
    serve_file fsAllFiles "/srv/public".toList "/../../etc/passwd".toList =
      ServeOutcome.fileServed "/srv/public/../../etc/passwd".toList := by
  exact ⟨by decide, by decide⟩

/-- Claim C3 counterexample: a request whose target is a directory still has
its per-path counter incremented — `handle_request` calls
`increment_counter` unconditionally after `serve_file` returns, so the
counter is not reserved for successful file serves. -/
theorem counterIncrement_cex :
    (servePhase fsAllDirs "/srv/public".toList "/sub".toList (fun _ => 0)).1 =
      ServeOutcome.dirListing "/srv/public/sub".toList ∧
    (servePhase fsAllDirs "/srv/public".toList "/sub".toList (fun _ => 0)).2
      "/sub".toList = 1 := by
  exact ⟨by decide, by decide⟩

/-- Claim C3 amended: after parsing succeeds, the handler increments the
requested path's counter exactly once per request, regardless of the serve
outcome — directory listings and 404 responses are counted just like file
serves — and counters of other paths are untouched. -/
theorem counterIncrement_amended (fs : FS) (root p : List Char)
    (counters : List Char → ℕ) :
    (servePhase fs root p counters).1 = serve_file fs root p ∧
    (servePhase fs root p counters).2 p = counters p + 1 ∧
    (∀ q, q ≠ p → (servePhase fs root p counters).2 q = counters q) := by
  refine ⟨rfl, by simp [servePhase, increment_counter], ?_⟩
  intro q hq
  simp [servePhase, increment_counter, hq]

/-- Witness for the amended C3 theorem at a concrete directory request. -/
theorem counterIncrement_amended_wit :
    (servePhase fsAllDirs "/srv/public".toList "/sub".toList (fun _ => 0)).2
      "/other".toList = 0 :=
  (counterIncrement_amended fsAllDirs "/srv/public".toList "/sub".toList
    (fun _ => 0)).2.2 "/other".toList (by decide)

/-- Claim C8: the admission decision returns `true` and increments the
active count exactly when the count is strictly below the bound, and
otherwise returns `false` leaving the count unchanged; with bound 10, an
attempt at count 10 is refused, and after one release the next attempt
succeeds. -/
theorem tryAcquire_spec (active maxThreads : ℤ) :
    (tryAcquire active maxThreads).1 = decide (active < maxThreads) ∧
    (tryAcquire active maxThreads).2 =
      (if active < maxThreads then active + 1 else active) ∧
    tryAcquire 10 10 = (false, 10) ∧
    tryAcquire (releaseSlot 10) 10 = (true, 10) := by
  refine ⟨?_, ?_, by decide, by decide⟩ <;>
    · unfold tryAcquire
      split <;> simp_all

/-- Claim C10 counterexample: the extension `.htm` is not a key of the
content-type dictionary, so it maps to `application/octet-stream`, not to
`text/html` as the claim states. -/
theorem contentType_cex :
    get_content_type ".htm".toList = "application/octet-stream".toList ∧
    decide (get_content_type ".htm".toList = "text/html".toList) = false := by
  exact ⟨by decide, by decide⟩

/-- Claim C10 amended: the content type is determined solely by the file
extension, with `.html` mapping to `text/html`, `.png` to `image/png`,
`.pdf` to `application/pdf`, and every other extension — including
`.htm` — to `application/octet-stream`. -/
theorem contentType_amended (ext : List Char) :
    (ext = ".html".toList → get_content_type ext = "text/html".toList) ∧
    (ext = ".png".toList → get_content_type ext = "image/png".toList) ∧
    (ext = ".pdf".toList → get_content_type ext = "application/pdf".toList) ∧
    (ext ≠ ".html".toList → ext ≠ ".png".toList → ext ≠ ".pdf".toList →
      get_content_type ext = "application/octet-stream".toList) ∧
    get_content_type ".htm".toList = "application/octet-stream".toList := by
  refine ⟨?_, ?_, ?_, ?_, by decide⟩
  · intro h; subst h; decide
  · intro h; subst h; decide
  · intro h; subst h; decide
  · intro h1 h2 h3
    unfold get_content_type
    rw [if_neg h1, if_neg h2, if_neg h3]

/-- Witness for the amended C10 theorem at the extension `.txt`. -/
theorem contentType_amended_wit :
    get_content_type ".txt".toList = "application/octet-stream".toList :=
  (contentType_amended ".txt".toList).2.2.2.1 (by decide) (by decide) (by decide)

/-- On a time-ordered deque (timestamps appended in nondecreasing order, as
the limiter maintains), the front-pruning loop removes exactly the
timestamps older than `now - window`. -/
theorem pruneWindow_sorted_filter (now window : ℚ) :
    ∀ dq : List ℚ, dq.Sorted (· ≤ ·) →
      pruneWindow now window dq = dq.filter (fun t => decide (now - t ≤ window)) := by
  intro dq
  induction dq with
  | nil => intro _; rfl
  | cons t rest ih =>
    intro h
    rw [List.sorted_cons] at h
    obtain ⟨hall, hrest⟩ := h
    by_cases hc : window < now - t
    · rw [pruneWindow, if_pos hc, List.filter_cons,
        decide_eq_false (not_le.mpr hc)]
      simpa using ih hrest
    · have hle : now - t ≤ window := not_lt.mp hc
      rw [pruneWindow, if_neg hc, List.filter_cons, decide_eq_true hle]
      simp only [if_true]
      rw [List.filter_eq_self.mpr]
      intro a ha
      exact decide_eq_true (le_trans (sub_le_sub_left (hall a ha) now) hle)

/-- Claim C4: `check_rate_limit` prunes the client's deque from the oldest
end, discarding exactly the timestamps older than `now - window` (the deque
is time-ordered); it rejects without recording `now` iff at least `quota`
timestamps remain, and otherwise appends `now` and accepts.  With quota 5
and window 1.0 s, five calls at t = 0 succeed, a sixth at t = 0.05 fails,
and a seventh at t = 1.10 succeeds again. -/
theorem rateLimiter_allow_spec (quota : ℕ) (window now : ℚ) (dq : List ℚ)
    (hs : dq.Sorted (· ≤ ·)) :
    pruneWindow now window dq = dq.filter (fun t => decide (now - t ≤ window)) ∧
    (check_rate_limit quota window now dq).1 =
      decide ((pruneWindow now window dq).length < quota) ∧
    (check_rate_limit quota window now dq).2 =
      (if (pruneWindow now window dq).length < quota
        then pruneWindow now window dq ++ [now]
        else pruneWindow now window dq) ∧
    runLimiter 5 1 [0, 0, 0, 0, 0, 1/20, 11/10] [] =
      [true, true, true, true, true, false, true] := by
  refine ⟨pruneWindow_sorted_filter now window dq hs, ?_, ?_, ?_⟩
  · by_cases hq : quota ≤ (pruneWindow now window dq).length
    · simp [check_rate_limit, hq, not_lt.mpr hq]
    · simp [check_rate_limit, hq, not_le.mp hq]
  · by_cases hq : quota ≤ (pruneWindow now window dq).length
    · simp [check_rate_limit, hq, not_lt.mpr hq]
    · simp [check_rate_limit, hq, not_le.mp hq]
  · norm_num [runLimiter, check_rate_limit, pruneWindow]

/-- Witness for the C4 theorem: the sorted five-entry deque at the seventh
call of the scenario. -/
theorem rateLimiter_allow_wit :
    (check_rate_limit 5 1 (11/10) [0, 0, 0, 0, 0]).1 =
      decide ((pruneWindow (11/10) 1 [0, 0, 0, 0, 0]).length < 5) :=
  (rateLimiter_allow_spec 5 1 (11/10) [0, 0, 0, 0, 0]
    (by norm_num [List.sorted_cons])).2.1

/-- Claim C5 counterexample: a connection that passes the rate check and
then delivers zero bytes terminates silently with no response — but the
rate check came first (see the event trace) and the client's timestamp was
already recorded, so the deque is no longer empty. -/
theorem handlerOrder_cex :
    handleConn 5 1 0 [] [] =
      (ConnOutcome.silentClose, [0], [ConnEv.evRateCheck, ConnEv.evRecv]) ∧
    decide ((handleConn 5 1 0 [] []).2.1 = ([] : List ℚ)) = false := by
  exact ⟨by decide, by decide⟩

/-- Claim C5 amended: `handle_request` performs the rate-limit check before
reading from the socket; when the check passes and the read yields zero
bytes the handler terminates silently, sending nothing further — but the
current timestamp has already been appended to the client's window. -/
theorem handlerOrder_amended (quota : ℕ) (window now : ℚ) (dq : List ℚ)
    (h : (check_rate_limit quota window now dq).1 = true) :
    handleConn quota window now dq [] =
      (ConnOutcome.silentClose, pruneWindow now window dq ++ [now],
        [ConnEv.evRateCheck, ConnEv.evRecv]) := by
  have h2 : (check_rate_limit quota window now dq).2 =
      pruneWindow now window dq ++ [now] := by
    by_cases hq : quota ≤ (pruneWindow now window dq).length
    · simp [check_rate_limit, hq] at h
    · simp [check_rate_limit, hq]
  simp [handleConn, h, h2]

/-- Witness for the amended C5 theorem on an empty deque at t = 0. -/
theorem handlerOrder_amended_wit :
    handleConn 5 1 0 [] [] =
      (ConnOutcome.silentClose, pruneWindow 0 1 [] ++ [0],
        [ConnEv.evRateCheck, ConnEv.evRecv]) :=
  handlerOrder_amended 5 1 0 [] (by decide)

/-- Claim C6 counterexample: a first request line of four tokens whose
method is `GET` does not proceed to path resolution — the tuple unpacking
raises, and the handler answers 500. -/
theorem parse_cex :
    (requestParts "GET /a /b HTTP/1.1".toList).length = 4 ∧
    (requestParts "GET /a /b HTTP/1.1".toList).headD [] = "GET".toList ∧
    parseRequest "GET /a /b HTTP/1.1".toList = ParseResult.unpackError ∧
    parseStatus (parseRequest "GET /a /b HTTP/1.1".toList) = some 500 := by
  exact ⟨by decide, by decide, by decide, by decide⟩

/-- Claim C6 amended: fewer than three tokens on the request line yields
400; exactly three tokens with a method other than `GET` yields 405;
exactly three tokens with method `GET` proceeds to path resolution; but
more than three tokens makes the tuple unpacking raise `ValueError`, which
the catch-all turns into a 500 response. -/
theorem parse_amended (raw : List Char) :
    ((requestParts raw).length < 3 → parseRequest raw = ParseResult.badRequest) ∧
    (3 < (requestParts raw).length → parseRequest raw = ParseResult.unpackError) ∧
    (∀ m p v, requestParts raw = [m, p, v] →
      parseRequest raw =
        (if m = "GET".toList then ParseResult.ok p else ParseResult.methodNotAllowed)) := by
  refine ⟨?_, ?_, ?_⟩
  · intro h
    simp only [parseRequest]
    rw [if_pos h]
  · intro h
    simp only [parseRequest]
    generalize hL : requestParts raw = L at h ⊢
    rcases L with _ | ⟨m, _ | ⟨p, _ | ⟨v, _ | ⟨w, rest⟩⟩⟩⟩ <;> simp_all
  · intro m p v hp
    simp only [parseRequest, hp]
    rfl

/-- Witness for the amended C6 theorem: a four-token `POST` request line is
answered 500 (the unpack raises before the method is even examined). -/
theorem parse_amended_wit :
    parseRequest "POST /a /b HTTP/1.1".toList = ParseResult.unpackError :=
  (parse_amended "POST /a /b HTTP/1.1".toList).2.1 (by decide)

/-- Bounds for `active_threads` along any well-formed admission trace,
generalized over the starting count. -/
theorem admRun_bounds (maxThreads : ℤ) :
    ∀ (evs : List AdmEv) (c : ℤ), 0 ≤ c → c ≤ maxThreads →
      wfAdm maxThreads c evs = true →
      0 ≤ admRun maxThreads c evs ∧ admRun maxThreads c evs ≤ maxThreads := by
  intro evs
  induction evs with
  | nil =>
    intro c h0 h1 _
    exact ⟨h0, h1⟩
  | cons e rest ih =>
    intro c h0 h1 hwf
    cases e with
    | connAdmit =>
      rw [wfAdm] at hwf
      by_cases hlt : c < maxThreads
      · have hstep : admRun maxThreads c (AdmEv.connAdmit :: rest) =
            admRun maxThreads (c + 1) rest := by
          simp [admRun, List.foldl_cons, admStep, hlt]
        have hwf2 : wfAdm maxThreads (c + 1) rest = true := by
          simpa [admStep, hlt] using hwf
        rw [hstep]
        exact ih (c + 1) (by omega) (by omega) hwf2
      · have hstep : admRun maxThreads c (AdmEv.connAdmit :: rest) =
            admRun maxThreads c rest := by
          simp [admRun, List.foldl_cons, admStep, hlt]
        have hwf2 : wfAdm maxThreads c rest = true := by
          simpa [admStep, hlt] using hwf
        rw [hstep]
        exact ih c h0 h1 hwf2
    | handlerExit =>
      rw [wfAdm, Bool.and_eq_true] at hwf
      have hpos : 0 < c := of_decide_eq_true hwf.1
      have hstep : admRun maxThreads c (AdmEv.handlerExit :: rest) =
          admRun maxThreads (c - 1) rest := rfl
      rw [hstep]
      exact ih (c - 1) (by omega) (by omega) hwf.2

/-- Claim C9: along every well-formed admission trace (each handler's
`finally` decrement follows its own admission, which the listener's
`thread_lock` guarantees), `active_threads` stays within
`[0, max_threads]`; and a handler thread releases exactly once on each of
its exit paths, error or not. -/
theorem activeCount_bounds (maxThreads : ℤ) (evs : List AdmEv) (raised : Bool)
    (hmax : 0 ≤ maxThreads) (hwf : wfAdm maxThreads 0 evs = true) :
    0 ≤ admRun maxThreads 0 evs ∧ admRun maxThreads 0 evs ≤ maxThreads ∧
    (handle_client_thread raised).count ThreadEv.evRelease = 1 := by
  obtain ⟨h1, h2⟩ := admRun_bounds maxThreads evs 0 le_rfl hmax hwf
  refine ⟨h1, h2, ?_⟩
  cases raised <;> rfl

/-- Witness for the C9 theorem: bound 2, three connections racing in (the
third is rejected at full capacity), then a fourth after one exit. -/
theorem activeCount_bounds_wit :
    0 ≤ admRun 2 0 [AdmEv.connAdmit, AdmEv.connAdmit, AdmEv.connAdmit,
        AdmEv.handlerExit, AdmEv.connAdmit, AdmEv.handlerExit, AdmEv.handlerExit] ∧
    admRun 2 0 [AdmEv.connAdmit, AdmEv.connAdmit, AdmEv.connAdmit,
        AdmEv.handlerExit, AdmEv.connAdmit, AdmEv.handlerExit, AdmEv.handlerExit] ≤ 2 ∧
    (handle_client_thread true).count ThreadEv.evRelease = 1 :=
  activeCount_bounds 2 [AdmEv.connAdmit, AdmEv.connAdmit, AdmEv.connAdmit,
    AdmEv.handlerExit, AdmEv.connAdmit, AdmEv.handlerExit, AdmEv.handlerExit] true
    (by decide) (by decide)

/-- Invariant of the synchronized-counter system: the counter equals the
initial value plus the number of finished threads, and any thread inside
the `with` block holds the lock and saw the current counter value. -/
def SyncInv (init : ℕ) {n : ℕ} (s : SyncState n) : Prop :=
  s.counter = init + doneCount s ∧
  ∀ i v, s.ts i = TState.locked v → s.lock = some i ∧ v = s.counter

/-- The invariant holds initially. -/
theorem syncInv_init (init n : ℕ) : SyncInv init (initSync init n) := by
  constructor
  · simp [initSync, doneCount, doneFun]
  · intro i v h
    simp [initSync] at h

/-- Updating a thread away from a non-`done` state to another non-`done`
state keeps the finished count unchanged. -/
theorem doneFun_update_not_done {n : ℕ} (f : Fin n → TState) (t : Fin n)
    (x : TState) (hx : x ≠ TState.done) (ht : f t ≠ TState.done) :
    doneFun (Function.update f t x) = doneFun f := by
  unfold doneFun
  congr 1
  apply Finset.filter_congr
  intro i _
  by_cases hit : i = t
  · subst hit
    simp [Function.update_same, hx, ht]
  · simp [Function.update_noteq hit]

/-- Finishing a previously unfinished thread raises the finished count by
one. -/
theorem doneFun_update_done {n : ℕ} (f : Fin n → TState) (t : Fin n)
    (ht : f t ≠ TState.done) :
    doneFun (Function.update f t TState.done) = doneFun f + 1 := by
  unfold doneFun
  have hins : (Finset.univ.filter
        (fun i : Fin n => Function.update f t TState.done i = TState.done)) =
      insert t (Finset.univ.filter (fun i => f i = TState.done)) := by
    ext i
    simp only [Finset.mem_filter, Finset.mem_insert, Finset.mem_univ, true_and]
    by_cases hit : i = t
    · subst hit
      simp [Function.update_same]
    · simp [Function.update_noteq hit, hit]
  rw [hins, Finset.card_insert_of_not_mem (by simp [ht])]

/-- The invariant is preserved by every scheduler step. -/
theorem syncInv_step {n : ℕ} (init : ℕ) (s : SyncState n) (t : Fin n)
    (h : SyncInv init s) : SyncInv init (syncStep s t) := by
  obtain ⟨hc, hl⟩ := h
  unfold doneCount at hc
  cases hts : s.ts t with
  | idle =>
    by_cases hlock : s.lock = none
    · have hstep : syncStep s t = SyncState.mk s.counter (some t)
          (Function.update s.ts t (TState.locked s.counter)) := by
        simp only [syncStep, hts]
        rw [if_pos hlock]
      rw [hstep]
      unfold SyncInv doneCount
      dsimp only
      constructor
      · rw [doneFun_update_not_done s.ts t _ (by simp) (by simp [hts])]
        exact hc
      · intro i v hiv
        by_cases hit : i = t
        · rw [hit] at hiv ⊢
          rw [Function.update_same] at hiv
          injection hiv with hv
          exact ⟨rfl, hv.symm⟩
        · rw [Function.update_noteq hit] at hiv
          have hcontra := (hl i v hiv).1
          rw [hlock] at hcontra
          exact absurd hcontra (by simp)
    · have hstep : syncStep s t = s := by
        simp only [syncStep, hts]
        rw [if_neg hlock]
      rw [hstep]
      exact ⟨hc, hl⟩
  | locked v =>
    by_cases hlock : s.lock = some t
    · have hvc : v = s.counter := (hl t v hts).2
      have hstep : syncStep s t = SyncState.mk (v + 1) none
          (Function.update s.ts t TState.done) := by
        simp only [syncStep, hts]
        rw [if_pos hlock]
      rw [hstep]
      unfold SyncInv doneCount
      dsimp only
      constructor
      · rw [doneFun_update_done s.ts t (by simp [hts])]
        omega
      · intro i w hiw
        by_cases hit : i = t
        · rw [hit, Function.update_same] at hiw
          exact absurd hiw (by simp)
        · rw [Function.update_noteq hit] at hiw
          have hcontra := (hl i w hiw).1
          rw [hlock] at hcontra
          injection hcontra with ht2
          exact absurd ht2.symm hit
    · have hstep : syncStep s t = s := by
        simp only [syncStep, hts]
        rw [if_neg hlock]
      rw [hstep]
      exact ⟨hc, hl⟩
  | done =>
    have hstep : syncStep s t = s := by
      simp only [syncStep, hts]
    rw [hstep]
    exact ⟨hc, hl⟩

/-- The invariant holds after running any schedule. -/
theorem syncInv_run (init n : ℕ) (sched : List (Fin n)) :
    SyncInv init (runSync init n sched) := by
  unfold runSync
  have hgen : ∀ (l : List (Fin n)) (s : SyncState n),
      SyncInv init s → SyncInv init (l.foldl syncStep s) := by
    intro l
    induction l with
    | nil => intro s hs; exact hs
    | cons a l2 ih => intro s hs; exact ih _ (syncInv_step init s a hs)
  exact hgen sched _ (syncInv_init init n)

/-- Claim C7: in synchronized mode, for every initial count and every
number `n` of concurrent `increment` calls on the same path, under every
interleaving (schedule) in which all `n` threads complete, the final
counter equals the initial count plus `n`. -/
theorem syncIncrements_linearizable (init n : ℕ) (sched : List (Fin n))
    (h : ∀ i, (runSync init n sched).ts i = TState.done) :
    (runSync init n sched).counter = init + n := by
  have hinv := syncInv_run init n sched
  have hd : doneCount (runSync init n sched) = n := by
    unfold doneCount doneFun
    rw [Finset.filter_true_of_mem (fun i _ => h i)]
    simp
  rw [hinv.1, hd]

/-- Witness for the C7 theorem: two threads, initial count 0, schedule in
which each thread acquires, increments and finishes in turn. -/
theorem syncIncrements_linearizable_wit :
    (∀ i, (runSync 0 2 [0, 0, 1, 1]).ts i = TState.done) ∧
    (runSync 0 2 [0, 0, 1, 1]).counter = 0 + 2 :=
  ⟨by decide, syncIncrements_linearizable 0 2 [0, 0, 1, 1] (by decide)⟩
